import Mathlib

/-!
Shallow embedding of the multi-task time-series model core of this repository
(`ecodyna/mutitask_models.py` and `validyna/models/nbeats.py`), together with
theorems settling the specification claims about it.

Conventions used throughout:
* a scalar value is a rational number (the code computes with floating-point
  tensors; arithmetic here is exact),
* a vector (one sample, one time point flattened, etc.) is a `List ℚ`,
* a batch matrix of shape (B, D) is a `List (List ℚ)` (B rows of length D),
* a batched time series of shape (B, T, D) is represented time-major as a
  `List` over T of (B, D) matrices, so that the Python slices `ts[:, i:j, :]`
  become plain list operations,
* Python exceptions are modelled with `Option`/`Except`: a raised exception
  is `none` / `.error e`, and a raising call leaves the caller's state
  unchanged (the mutation in the source happens only after the raising
  expression would have been evaluated).
-/

/-- Errors raised during model construction (`mutitask_models.py`).
`noTaskSize` is the `ValueError` at line 49 (no task size supplied),
`intArgBelowMin` the `ValueError` of `check_int_arg`, and `assertFailed`
an `AssertionError` from a failed `assert` statement. -/
inductive CfgErr where
  | noTaskSize
  | intArgBelowMin
  | assertFailed
deriving DecidableEq, Repr

/-- The helper `check_int_arg(arg, n_min, desc)` of `mutitask_models.py`
(lines 11-18): raises `ValueError` when the argument is below `n_min`.
The argument is typed `Int` here, so the `isinstance(arg, int)` part of the
Python check holds by construction. -/
def check_int_arg (arg n_min : Int) : Except CfgErr Int :=
  if arg < n_min then .error .intArgBelowMin else .ok arg

/-- The attribute state produced by `MultiTaskTimeSeriesModel.__init__`
(lines 38-61): `n_in` and `space_dim` are validated and stored, and the three
task markers are set to `None` (lines 56-58) regardless of the arguments. -/
structure BaseState where
  n_in : Int
  space_dim : Int
  n_classes : Option Int
  n_features : Option Int
  n_out : Option Int
deriving DecidableEq, Repr

/-- `MultiTaskTimeSeriesModel.__init__` (lines 38-61): first the check that at
least one of the three task sizes is non-None (lines 48-49), then the
`check_int_arg` validations of `n_in` and `space_dim` (lines 52-53), then the
markers are initialised to `None` (lines 56-58). -/
def MTTS_init (n_in space_dim : Int)
    (n_classes n_features n_out : Option Int) : Except CfgErr BaseState :=
  if n_classes = none ∧ n_features = none ∧ n_out = none then
    .error .noTaskSize
  else do
    let ni ← check_int_arg n_in 1
    let sd ← check_int_arg space_dim 1
    .ok { n_in := ni, space_dim := sd,
          n_classes := none, n_features := none, n_out := none }

/-- `MultiTaskRNN.__init__` (lines 207-247): the two `assert` statements on
`model` and `forecast_type` (lines 222-223), then the call
`super().__init__(n_in=n_in, space_dim=space_dim)` (line 225), which passes
`None` for all three task sizes. Everything after line 225 of the source
(hyperparameter registration, `nn` module construction, the conditional
`prepare_to_*` calls) is unreachable, because that call always raises; the
embedding therefore stops at the result of the `super().__init__` call. -/
def MultiTaskRNN_init (n_in space_dim : Int) (model : String)
    (_n_layers _n_hidden : Int) (n_classes n_features n_out : Option Int)
    (forecast_type : String) : Except CfgErr BaseState :=
  if model ≠ "GRU" ∧ model ≠ "LSTM" then .error .assertFailed
  else if forecast_type ≠ "multi" ∧ forecast_type ≠ "one_by_one" then
    .error .assertFailed
  else do
    let base ← MTTS_init n_in space_dim none none none
    let _ := (n_classes, n_features, n_out)
    .ok base

/-! ### The dispatch entry point `MultiTaskTimeSeriesModel.forward` -/

/-- Shape of a rank-3 tensor (batch, time, channels), as returned by
`x.size()` for the dispatch input. -/
structure Size3 where
  B : Nat
  T : Nat
  D : Nat
deriving DecidableEq, Repr

/-- Shape of a rank-2 tensor, as produced by the classification and
featurization task computations. -/
structure Size2 where
  d0 : Nat
  d1 : Nat
deriving DecidableEq, Repr

/-- The task selector of `forward(x, kind)` (the
`Literal['classify', 'featurize', 'forecast']` annotation). -/
inductive TaskKind where
  | classify
  | featurize
  | forecast
deriving DecidableEq, Repr

/-- Errors raised by `forward` (lines 118-140): `shapeAssert` for the two
input-shape `assert`s (lines 124-125), `outputAssert` for the output-shape
`assert`s (lines 128, 132, 136-137), `notPrepared` for the `ValueError` of
line 140. -/
inductive FwdErr where
  | shapeAssert
  | outputAssert
  | notPrepared
deriving DecidableEq, Repr

/-- The value returned by `forward`, tagged by the task that produced it. -/
inductive FwdOut where
  | cls (y : Size2)
  | feat (y : Size2)
  | fct (y : Size3)
deriving DecidableEq, Repr

/-- The marker field consulted by `forward` for the given task selector
(the `is_prepared_to_*` predicates of lines 93-100). -/
def markerOf (n_classes n_features n_out : Option Nat) : TaskKind → Option Nat
  | .classify => n_classes
  | .featurize => n_features
  | .forecast => n_out

/-- `MultiTaskTimeSeriesModel.forward` (lines 118-140), at the level of
shapes: unpack `B, T, D = x.size()`, assert `T == n_in` and
`D == space_dim`, then dispatch on `kind`; each task branch requires the
marker to be set, runs the task computation (here the abstract shape
functions `fc`, `ff`, `fo`), asserts its output-shape postcondition, and
returns; all unprepared cases fall through to the `ValueError` of
line 140. -/
def MTTS_forward (n_in space_dim : Nat)
    (n_classes n_features n_out : Option Nat)
    (fc ff : Size3 → Size2) (fo : Size3 → Size3)
    (x : Size3) (kind : TaskKind) : Except FwdErr FwdOut :=
  if x.T ≠ n_in then .error .shapeAssert
  else if x.D ≠ space_dim then .error .shapeAssert
  else
    match kind with
    | .classify =>
      match n_classes with
      | some nc =>
        let y := fc x
        if y.d1 = nc then .ok (.cls y) else .error .outputAssert
      | none => .error .notPrepared
    | .featurize =>
      match n_features with
      | some nf =>
        let y := ff x
        if y.d1 = nf then .ok (.feat y) else .error .outputAssert
      | none => .error .notPrepared
    | .forecast =>
      match n_out with
      | some m =>
        let y := fo x
        if y.T = m ∧ y.D = space_dim then .ok (.fct y)
        else .error .outputAssert
      | none => .error .notPrepared

/-- The output-shape postcondition asserted by each branch of `forward`
(lines 128, 132, 136-137). -/
def fwdPost (space_dim : Nat) (n_classes n_features n_out : Option Nat) :
    FwdOut → Prop
  | .cls y => n_classes = some y.d1
  | .feat y => n_features = some y.d1
  | .fct y => n_out = some y.T ∧ y.D = space_dim

/-! ### `MultiTaskRNN.get_applicable_forecast_functions` -/

/-- Errors of Python attribute access and iteration. -/
inductive PyErr where
  | attributeError
  | typeError
  | indexError
deriving DecidableEq, Repr

/-- The attribute names defined on a `MultiTaskRNN` instance: the methods of
`MultiTaskRNN` (lines 202-329) and of `MultiTaskTimeSeriesModel`
(lines 26-199), plus the instance fields assigned in their `__init__`
bodies.  None of the further ancestors (`nn.Module`, `ABC`) define any
`forecast_*` attribute. -/
def multiTaskRNNAttrNames : List String :=
  ["prepare_to_classify", "prepare_to_forecast", "prepare_to_featurize",
   "_forward_classify", "_forward_featurize", "_forward_forecast",
   "forecast_multi_all", "forecast_recurrently_one_by_one",
   "forecast_recurrently_multi_first", "get_applicable_forecast_functions",
   "_get_featurizer_parameters", "name",
   "register_hyperparams", "is_prepared_to_classify",
   "is_prepared_to_featurize", "is_prepared_to_forecast", "forward",
   "classify", "featurize", "forecast_in_chunks", "freeze_featurizer",
   "unfreeze_featurizer",
   "n_in", "space_dim", "n_classes", "n_features", "n_out", "hyperparams",
   "model", "n_layers", "n_hidden", "forecast_type", "rnn", "classifier",
   "forecaster"]

/-- Attribute lookup `self.<name>` on a `MultiTaskRNN` instance: succeeds for
the names defined on the instance or its class hierarchy, raises
`AttributeError` otherwise. -/
def rnnGetattr (name : String) : Except PyErr String :=
  if name ∈ multiTaskRNNAttrNames then .ok name else .error .attributeError

/-- `MultiTaskRNN.get_applicable_forecast_functions` (lines 312-322): builds
the dictionary `{'chunks': self.forecast_in_chunks}`, then adds the entry for
the model's forecast type; building the `'multi'` entry looks up the
attribute `forecast_recurrently_chunk_first` (line 321).  The dictionary is
modelled as an association list from key to the attribute name bound to
it. -/
def get_applicable_forecast_functions (forecast_type : String) :
    Except PyErr (List (String × String)) := do
  let f1 ← rnnGetattr "forecast_in_chunks"
  let base := [("chunks", f1)]
  if forecast_type = "one_by_one" then
    let f2 ← rnnGetattr "forecast_recurrently_one_by_one"
    .ok (base ++ [("one_by_one", f2)])
  else if forecast_type = "multi" then
    let f3 ← rnnGetattr "forecast_recurrently_chunk_first"
    .ok (base ++ [("multi", f3)])
  else .ok base

/-! ### Featurizer freezing (`freeze_featurizer` / `unfreeze_featurizer`) -/

/-- The `requires_grad` flags of a backbone's parameters, split into the
subset returned by `_get_featurizer_parameters` (for `MultiTaskRNN`:
`self.rnn.parameters()`, line 326; for `MultiTaskTransformer`:
`self.transformer.encoder.parameters()`, line 480) and the rest of the
model's parameters, which the freeze methods never iterate over. -/
structure ParamFlags where
  featurizer : List Bool
  rest : List Bool
deriving DecidableEq, Repr

/-- `MultiTaskTimeSeriesModel.freeze_featurizer` (lines 185-187):
`parameter.requires_grad_(False)` for every featurizer parameter. -/
def freeze_featurizer (p : ParamFlags) : ParamFlags :=
  { p with featurizer := p.featurizer.map (fun _ => false) }

/-- `MultiTaskTimeSeriesModel.unfreeze_featurizer` (lines 189-191):
`parameter.requires_grad_(True)` for every featurizer parameter. -/
def unfreeze_featurizer (p : ParamFlags) : ParamFlags :=
  { p with featurizer := p.featurizer.map (fun _ => true) }

/-! ### Forecast horizon extension -/

/-- A batch matrix of shape (B, D): B rows of length D. -/
abbrev MatQ := List (List ℚ)

/-- A batched time series of shape (B, T, D), stored time-major as a list
over T of (B, D) matrices, so that the slices `ts[:, i:j, :]` of the source
become plain list operations. -/
abbrev TsQ := List MatQ

/-- The matrix has B rows, each of length D. -/
abbrev mShape (m : MatQ) (B D : Nat) : Prop :=
  m.length = B ∧ ∀ r ∈ m, r.length = D

/-- The time series has T time steps, each a (B, D) matrix. -/
abbrev tShape (ts : TsQ) (T B D : Nat) : Prop :=
  ts.length = T ∧ ∀ m ∈ ts, mShape m B D

/-- The loop of `forecast_in_chunks` (lines 170-173):
`for i in range(T, T + n, self.n_out)` reads the window
`ts[:, i - self.n_in:i, :]` of the last `n_in` written steps, applies the
native forecast primitive `F` (the method `_forward_forecast`), and appends
`out[:, :min(self.n_out, T + n - i), :]`.  `ts.length` plays the role of the
write frontier `i`, and `remaining` of `T + n - i`.  `fuel` is an upper
bound on the number of iterations, needed only for termination: with
`n_out ≥ 1` (guaranteed by `prepare_to_forecast`) and `fuel = n`, the fuel
never runs out before `remaining` does. -/
def chunksLoop (F : TsQ → TsQ) (n_in n_out : Nat) :
    Nat → Nat → TsQ → TsQ
  | 0, _, ts => ts
  | fuel + 1, remaining, ts =>
    if remaining = 0 then ts
    else
      let out := F (ts.drop (ts.length - n_in))
      let w := min n_out remaining
      chunksLoop F n_in n_out fuel (remaining - w) (ts ++ out.take w)

/-- `MultiTaskTimeSeriesModel.forecast_in_chunks` (lines 159-174): raise
`ValueError` when not prepared to forecast (`n_out` unset), assert
`T == n_in`, initialise `ts[:, :T, :] = x`, then run the chunk loop. -/
def forecast_in_chunks (n_in : Nat) (n_out : Option Nat) (F : TsQ → TsQ)
    (x : TsQ) (n : Nat) : Option TsQ :=
  match n_out with
  | none => none
  | some m =>
    if x.length = n_in then some (chunksLoop F n_in m n n x) else none

/-- The loop of `forecast_recurrently_one_by_one` (lines 293-295): write
`ts[:, i, :] = forecaster(out[:, -1, :])`, then advance the recurrent state
by feeding that single new step, `out, h = rnn(ts[:, i:i+1, :], h)`.
`out.getLastD []` is `out[:, -1, :]` (the recurrent output at the last time
step; the default is never reached because the rnn output is nonempty). -/
def oneByOneLoop {H : Type} (rnn : TsQ → Option H → TsQ × H)
    (forecaster : MatQ → MatQ) : Nat → TsQ → TsQ → H → TsQ
  | 0, ts, _, _ => ts
  | k + 1, ts, out, h =>
    let step := forecaster (out.getLastD [])
    let next := rnn [step] (some h)
    oneByOneLoop rnn forecaster k (ts ++ [step]) next.1 next.2

/-- `MultiTaskRNN.forecast_recurrently_one_by_one` (lines 287-296): assert
the forecast type is `one_by_one`, initialise `ts[:, :T, :] = x`, run the
whole input through the rnn (`out, last_hidden_state = self.rnn(x)`), then
loop.  The rnn is the abstract function `rnn xs h`, taking the input steps
and an optional initial hidden state and returning the per-step outputs and
the final hidden state. -/
def forecast_recurrently_one_by_one {H : Type} (forecast_type : String)
    (rnn : TsQ → Option H → TsQ × H) (forecaster : MatQ → MatQ)
    (x : TsQ) (n : Nat) : Option TsQ :=
  if forecast_type = "one_by_one" then
    let first := rnn x none
    some (oneByOneLoop rnn forecaster n x first.1 first.2)
  else none

/-- The loop of `forecast_recurrently_multi_first` (lines 307-309): the
forecaster head emits a full multi-step block of shape (B, n_out*D);
`.reshape(B, self.n_out, D)[:, 0, :]` keeps the first predicted step, which
row-major is the first D entries of each row, i.e. `row.take D`. -/
def multiFirstLoop {H : Type} (rnn : TsQ → Option H → TsQ × H)
    (forecaster : MatQ → MatQ) (D : Nat) : Nat → TsQ → TsQ → H → TsQ
  | 0, ts, _, _ => ts
  | k + 1, ts, out, h =>
    let step := (forecaster (out.getLastD [])).map (fun row => row.take D)
    let next := rnn [step] (some h)
    multiFirstLoop rnn forecaster D k (ts ++ [step]) next.1 next.2

/-- `MultiTaskRNN.forecast_recurrently_multi_first` (lines 298-310): assert
the forecast type is `multi`, initialise the output with `x`, feed `x`
through the rnn, then loop keeping only the first predicted step of each
multi-step forecast. -/
def forecast_recurrently_multi_first {H : Type} (forecast_type : String)
    (rnn : TsQ → Option H → TsQ × H) (forecaster : MatQ → MatQ)
    (D : Nat) (x : TsQ) (n : Nat) : Option TsQ :=
  if forecast_type = "multi" then
    let first := rnn x none
    some (multiFirstLoop rnn forecaster D n x first.1 first.2)
  else none

/-! ### NBEATS trainable-flag state (`validyna/models/nbeats.py`) -/

/-- The `requires_grad` flags of one `NBEATS._Block` (lines 16-45), one flag
per owned module: the FC trunk (`FC_stack`), the two expansion heads
(`FC_backcast`, `FC_forecast`), the backcast generator (`g_backcast`), and
the lazily created forecast generator `g_forecast` (`None` while `n_out` is
unknown).  `requires_grad_` on a module sets the flag of all its
parameters, so one flag per module suffices. -/
structure BlockFlags where
  FC_stack : Bool
  FC_backcast : Bool
  FC_forecast : Bool
  g_backcast : Bool
  g_forecast : Option Bool
deriving DecidableEq, Repr

/-- A `NBEATS._Stack` (lines 70-92) owns its blocks in the module-list
attribute `blocks`; the `_Stack` object itself defines no `__iter__` and no
`__getitem__`. -/
structure StackFlags where
  blocks : List BlockFlags
deriving DecidableEq, Repr

/-- The flag state of a whole `NBEATS` network: the module list `stacks`
of the source, spelled `stacksM` here because `stacks` is reserved in this
environment. -/
structure NBFlags where
  stacksM : List StackFlags
deriving DecidableEq, Repr

/-- The effect of lines 127-128 of `nbeats.py`:
`self.stacks[-1].blocks[-1].FC_backcast.requires_grad_(False)` and the same
for `g_backcast`.  `none` models the `IndexError` of `[-1]` on an empty
module list. -/
def freezeTerminalBlock (s : List StackFlags) : Option (List StackFlags) :=
  match s.getLast? with
  | none => none
  | some lastStack =>
    match lastStack.blocks.getLast? with
    | none => none
    | some lastBlk =>
      some (s.dropLast ++ [StackFlags.mk (lastStack.blocks.dropLast ++
        [{ lastBlk with FC_backcast := false, g_backcast := false }])])

/-- `NBEATS.__init__` (lines 94-128) at the level of flags: every module of
every block is created trainable (`g_forecast` only when `n_out` was
given, lines 39-41), then the terminal block's two backcast modules are
made non-trainable (lines 127-128). -/
def NBEATS_flags_init (n_stacks n_blocks : Nat) (withNOut : Bool) :
    Except PyErr NBFlags :=
  match freezeTerminalBlock
      (List.replicate n_stacks (StackFlags.mk (List.replicate n_blocks
        ⟨true, true, true, true, if withNOut then some true else none⟩)))
      with
  | none => .error .indexError
  | some s => .ok ⟨s⟩

/-- The `requires_grad` flag of `stacks[-1].blocks[-1].g_backcast` (the
backcast-generation weights of the very last block of the last stack). -/
def terminal_g_backcast (s : NBFlags) : Option Bool :=
  (s.stacksM.getLast?.bind (fun st => st.blocks.getLast?)).map
    (fun b => b.g_backcast)

/-- Iterating a `_Stack` object (the `for block in stack` of
`mutitask_models.py` line 411): `_Stack` is a plain `nn.Module` with no
`__iter__` and no `__getitem__`, so iteration raises `TypeError`.  (The
blocks live in the separate attribute `stack.blocks`, which the
comprehension does not use.) -/
def stack_iter_blocks (_st : StackFlags) : Except PyErr (List BlockFlags) :=
  .error .typeError

/-- The attribute names defined on a `NBEATS._Block` (lines 16-68 of
`nbeats.py`): the fields assigned in `__init__` and the methods of the
class body. -/
def nbeatsBlockAttrNames : List String :=
  ["n_in", "n_out", "n_layers", "expansion_coefficient_dim", "layer_widths",
   "FC_stack", "FC_backcast", "FC_forecast", "g_backcast", "g_forecast",
   "set_n_out", "forward_old", "get_expansions", "forward_from_expansions",
   "forward"]

/-- Attribute access `block.<name>` for the module attributes of a block:
the four modules defined on `_Block` succeed; any other name (in
particular `FC_forward`, `FC_backward` and `g_backward`, which are not in
`nbeatsBlockAttrNames`) raises `AttributeError`. -/
def block_getattr_flag (b : BlockFlags) (name : String) : Except PyErr Bool :=
  if name = "FC_stack" then .ok b.FC_stack
  else if name = "FC_backcast" then .ok b.FC_backcast
  else if name = "FC_forecast" then .ok b.FC_forecast
  else if name = "g_backcast" then .ok b.g_backcast
  else .error .attributeError

/-- `MultiTaskNBEATS._get_featurizer_parameters` (lines 408-413): the list
comprehension iterates `self.nbeats.stacks` (a `ModuleList`, iterable),
then `for block in stack` (which raises, see `stack_iter_blocks`), and
would then collect the modules named `FC_stack`, `FC_forward`,
`FC_backward`, `g_backward` from each block and return their parameter
flags. -/
def mt_nbeats_get_featurizer_parameters (s : NBFlags) :
    Except PyErr (List Bool) := do
  let blocks ← s.stacksM.foldlM (fun acc st => do
    let bs ← stack_iter_blocks st
    pure (acc ++ bs)) []
  blocks.foldlM (fun acc blk => do
    let m1 ← block_getattr_flag blk "FC_stack"
    let m2 ← block_getattr_flag blk "FC_forward"
    let m3 ← block_getattr_flag blk "FC_backward"
    let m4 ← block_getattr_flag blk "g_backward"
    pure (acc ++ [m1, m2, m3, m4])) []

/-- `freeze_featurizer` (lines 185-187) on the residual-stack backbone: the
loop header evaluates `self._get_featurizer_parameters()` first, so the
exception propagates before any flag is mutated; in the only non-raising
case (zero stacks) the parameter list is empty and nothing is set, so the
state is returned unchanged. -/
def mt_nbeats_freeze_featurizer (s : NBFlags) : Except PyErr NBFlags :=
  match mt_nbeats_get_featurizer_parameters s with
  | .error e => .error e
  | .ok _ => .ok s

/-- `unfreeze_featurizer` (lines 189-191) on the residual-stack backbone;
same control flow as `mt_nbeats_freeze_featurizer`. -/
def mt_nbeats_unfreeze_featurizer (s : NBFlags) : Except PyErr NBFlags :=
  match mt_nbeats_get_featurizer_parameters s with
  | .error e => .error e
  | .ok _ => .ok s

/-- The public operations on a `MultiTaskNBEATS` model, by their effect on
the NBEATS `requires_grad` flags: `freeze`/`unfreeze` run the loops above
(a raised exception leaves the flags untouched); `setNOut` is
`NBEATS.set_n_out` (lines 130-133, 79-82, 43-45), which replaces every
block's `g_forecast` with a freshly created — hence trainable — linear
layer; every other public operation (`prepare_to_*`, `forward`,
`featurize`, `classify`, attribute reads) creates new head modules or
mutates markers but never writes a `requires_grad` flag of the NBEATS
modules, so it is a no-op on this state. -/
inductive NBOp where
  | freeze
  | unfreeze
  | setNOut
  | otherPublic
deriving DecidableEq, Repr

/-- One public operation applied to the flag state. -/
def nbStep (op : NBOp) (s : NBFlags) : NBFlags :=
  match op with
  | .freeze =>
    match mt_nbeats_freeze_featurizer s with
    | .ok s' => s'
    | .error _ => s
  | .unfreeze =>
    match mt_nbeats_unfreeze_featurizer s with
    | .ok s' => s'
    | .error _ => s
  | .setNOut =>
    ⟨s.stacksM.map (fun st => ⟨st.blocks.map
      (fun b => { b with g_forecast := some true })⟩)⟩
  | .otherPublic => s

/-! ### NBEATS value semantics (`validyna/models/nbeats.py`) -/

/-- A linear layer `nn.Linear`: a weight matrix (one row per output
feature) and a bias vector; application is `W v + b`.  The code computes
with floating-point tensors; the embedding uses exact rational
arithmetic. -/
structure LinearM where
  weight : List (List ℚ)
  bias : List ℚ
deriving DecidableEq, Repr

/-- Dot product (vectors of equal length in every well-formed use). -/
def dotQ (r v : List ℚ) : ℚ := (List.zipWith (fun a b => a * b) r v).sum

/-- Application of a linear layer to one input vector. -/
def LinearM.applyL (l : LinearM) (v : List ℚ) : List ℚ :=
  List.zipWith (fun a b => a + b) (l.weight.map (fun r => dotQ r v)) l.bias

/-- `F.relu`, element-wise. -/
def reluQ (v : List ℚ) : List ℚ := v.map (fun a => max a 0)

/-- Element-wise addition (`+`/`+=` on tensors of equal shape; `zipWith`
truncates on a mismatch, where torch would raise — the theorems carry
well-formedness hypotheses that rule mismatches out). -/
def vadd (a b : List ℚ) : List ℚ := List.zipWith (fun x y => x + y) a b

/-- Element-wise subtraction (`x - block_backcast`). -/
def vsub (a b : List ℚ) : List ℚ := List.zipWith (fun x y => x - y) a b

/-- `torch.zeros(B, m)`, one batch row.  All the network operations act on
each batch row independently, so the embedding is per-row. -/
def zerosQ (m : Nat) : List ℚ := List.replicate m (0 : ℚ)

/-- A `NBEATS._Block` (lines 16-68): the FC trunk, the two expansion heads,
the backcast generator, and the lazily created forecast generator (`None`
until `set_n_out`).  The stored integer configuration attributes that no
modelled method reads (`n_in`, `n_layers`, `expansion_coefficient_dim`,
`layer_widths`) are omitted; `n_out` is kept because `set_n_out` writes
it. -/
structure BlockM where
  n_out : Option Nat
  FC_stack : List LinearM
  FC_backcast : LinearM
  FC_forecast : LinearM
  g_backcast : LinearM
  g_forecast : Option LinearM
deriving DecidableEq, Repr

/-- The FC trunk shared by both expansions (lines 56-57):
`for layer in self.FC_stack: x = F.relu(layer(x))`. -/
def BlockM.trunk (b : BlockM) (x : List ℚ) : List ℚ :=
  b.FC_stack.foldl (fun a l => reluQ (l.applyL a)) x

/-- `_Block.get_expansions` (lines 55-58): the backcast and forecast
expansion coefficients. -/
def BlockM.get_expansions (b : BlockM) (x : List ℚ) : List ℚ × List ℚ :=
  (b.FC_backcast.applyL (b.trunk x), b.FC_forecast.applyL (b.trunk x))

/-- `_Block.forward` (lines 66-68), composing `get_expansions` with
`forward_from_expansions` (lines 60-64); calling the absent `g_forecast`
(still `None`) raises. -/
def BlockM.forwardB (b : BlockM) (x : List ℚ) : Option (List ℚ × List ℚ) :=
  match b.g_forecast with
  | none => none
  | some gf =>
    some (b.g_backcast.applyL (b.get_expansions x).1,
          gf.applyL (b.get_expansions x).2)

/-- A `NBEATS._Stack` (lines 70-92); `n_blocks` is omitted (no modelled
method reads it). -/
structure StackM where
  n_in : Nat
  n_out : Option Nat
  blocks : List BlockM
deriving DecidableEq, Repr

/-- `_Stack.forward` (lines 84-92), one batch row: assert the input width,
start the forecast at `torch.zeros(B, self.n_out)` (raising when `n_out`
is `None`), then per block subtract the backcast from the residual and add
the forecast to the accumulator; returns the final residual and the stack
forecast. -/
def StackM.forwardS (st : StackM) (x : List ℚ) : Option (List ℚ × List ℚ) :=
  if x.length = st.n_in then
    match st.n_out with
    | none => none
    | some m =>
      st.blocks.foldlM (fun (p : List ℚ × List ℚ) b => do
        let r ← BlockM.forwardB b p.1
        pure (vsub p.1 r.1, vadd p.2 r.2)) (x, zerosQ m)
  else none

/-- The `NBEATS` network state (lines 94-133); the module list `stacks` of
the source is spelled `stacksV` here because `stacks` is reserved in this
environment; `n_layers`/`layer_widths` are omitted (no modelled method
reads them). -/
structure NBEATSM where
  n_in : Nat
  n_out : Option Nat
  n_stacks : Nat
  n_blocks : Nat
  expansion_coefficient_dim : Nat
  stacksV : List StackM
deriving DecidableEq, Repr

/-- `NBEATS.forward` (lines 135-145), one batch row: raise when `n_out` is
unset, assert the input width, then thread the residual through the stacks
(`backcast, stack_forecast = stack(backcast)`) and sum the per-stack
forecasts starting from `torch.zeros(B, self.n_out)`; returns the total
forecast. -/
def NBEATSM.forwardN (net : NBEATSM) (x : List ℚ) : Option (List ℚ) :=
  match net.n_out with
  | none => none
  | some m =>
    if x.length = net.n_in then
      (net.stacksV.foldlM (fun (p : List ℚ × List ℚ) st => do
        let r ← StackM.forwardS st p.1
        pure (r.1, vadd p.2 r.2)) (x, zerosQ m)).map
        (fun (p : List ℚ × List ℚ) => p.2)
    else none

/-- One slice assignment `features[:, i:i+ecd] = forecast_expansion`
(line 157), one batch row; the written vector has width `ecd` in every
well-formed run (torch raises on a width mismatch, which the
well-formedness hypotheses of the theorems rule out). -/
def writeSlice (f : List ℚ) (i len : Nat) (v : List ℚ) : List ℚ :=
  f.take i ++ v.take len ++ f.drop (i + len)

/-- The inner loop of `NBEATS.featurize` (lines 153-157) over
`enumerate(stack.blocks)` at fixed stack index `s`: compute the expansions
of the running residual, replace the residual by the generated backcast
`block.g_backcast(backcast_expansion)` (the source assigns, it does not
subtract), and write the forecast expansion at offset
`(s * n_blocks + b) * expansion_coefficient_dim`. -/
def featBlocksLoop (nb ecd s : Nat) :
    List BlockM → Nat → List ℚ × List ℚ → List ℚ × List ℚ
  | [], _, p => p
  | blk :: rest, b, p =>
    featBlocksLoop nb ecd s rest (b + 1)
      (blk.g_backcast.applyL (blk.get_expansions p.1).1,
       writeSlice p.2 ((s * nb + b) * ecd) ecd (blk.get_expansions p.1).2)

/-- The outer loop of `NBEATS.featurize` over `enumerate(self.stacks)`,
threading the residual and the feature buffer through every stack. -/
def featStacksLoop (nb ecd : Nat) :
    List StackM → Nat → List ℚ × List ℚ → List ℚ × List ℚ
  | [], _, p => p
  | st :: rest, s, p =>
    featStacksLoop nb ecd rest (s + 1) (featBlocksLoop nb ecd s st.blocks 0 p)

/-- `NBEATS.featurize` (lines 147-158), one batch row: assert the input
width, allocate
`torch.zeros(B, n_stacks * n_blocks * expansion_coefficient_dim)`, then
run the nested loops with the raw input as the first residual. -/
def NBEATSM.featurizeN (net : NBEATSM) (x : List ℚ) : Option (List ℚ) :=
  if x.length = net.n_in then
    some (featStacksLoop net.n_blocks net.expansion_coefficient_dim
      net.stacksV 0
      (x, zerosQ (net.n_stacks * net.n_blocks *
        net.expansion_coefficient_dim))).2
  else none

/-- The blocks of the network in stack-then-block order. -/
def flatBlocks (net : NBEATSM) : List BlockM :=
  (net.stacksV.map (fun st => st.blocks)).flatten

/-- The doubly-residual propagation of the forward pass: the residual left
after a list of blocks has consumed an input, each block subtracting its
generated backcast. -/
def residAfter : List BlockM → List ℚ → List ℚ
  | [], r => r
  | b :: bs, r =>
    residAfter bs (vsub r (b.g_backcast.applyL (b.get_expansions r).1))

/-- Modelled from the spec (the featurization pass it describes):
featurization reuses the forward pass's residual propagation — each block
after the first receives the previous residual minus the previous block's
generated backcast — and concatenates the raw forecast-expansion vectors
in stack-then-block order. -/
def specFeatureChain : List BlockM → List ℚ → List ℚ
  | [], _ => []
  | b :: bs, r =>
    (b.get_expansions r).2 ++
      specFeatureChain bs (vsub r (b.g_backcast.applyL (b.get_expansions r).1))

/-- Modelled from the spec: the whole featurization pass the spec describes
(input-width check as in the code, then the residual-subtracting collection
pass). -/
def featurizeSpec (net : NBEATSM) (x : List ℚ) : Option (List ℚ) :=
  if x.length = net.n_in then some (specFeatureChain (flatBlocks net) x)
  else none

/-- Modelled from the spec/claim: the list of every block's individual
forecast output, each computed on that block's residual input under the
doubly-residual propagation, in stack-then-block order.  (The `getD`
default is never used under the readiness hypotheses of the theorem.) -/
def blockForecastChain : List BlockM → List ℚ → List (List ℚ)
  | [], _ => []
  | b :: bs, r =>
    (b.g_forecast.getD ⟨[], []⟩).applyL (b.get_expansions r).2 ::
      blockForecastChain bs (vsub r (b.g_backcast.applyL (b.get_expansions r).1))

/-- Modelled from the spec/claim: the element-wise sum of every block's
individual forecast output. -/
def blockForecastSum (net : NBEATSM) (x : List ℚ) (m : Nat) : List ℚ :=
  (blockForecastChain (flatBlocks net) x).foldl vadd (zerosQ m)

/-- Readiness of a block for the forward pass: the forecast generator
exists and emits `m` values, and the backcast generator emits `nin` values
(the shapes `nn.Linear(expansion_coefficient_dim, n_out)` and
`nn.Linear(expansion_coefficient_dim, n_in)` give after `set_n_out`). -/
def blockReadyF (b : BlockM) (nin m : Nat) : Bool :=
  (match b.g_forecast with
   | none => false
   | some gf => gf.weight.length == m && gf.bias.length == m) &&
  b.g_backcast.weight.length == nin && b.g_backcast.bias.length == nin

/-- Well-formedness of a block's forecast-expansion head: it emits
`expansion_coefficient_dim` coefficients (the shape
`nn.Linear(layer_width, expansion_coefficient_dim)` gives it). -/
def blockFeatOK (b : BlockM) (ecd : Nat) : Bool :=
  b.FC_forecast.weight.length == ecd && b.FC_forecast.bias.length == ecd

/-- An arbitrary rebinding of the forecast-specific state of the network:
the `n_out` markers and every block's `g_forecast`, as `NBEATS.set_n_out`
(lines 130-133, 79-82, 43-45) or a construction with another `n_out` would
produce; everything featurization reads is untouched. -/
def replaceForecastParts (net : NBEATSM) (o os : Option Nat)
    (g : BlockM → Option LinearM) : NBEATSM :=
  { net with
    n_out := o,
    stacksV := net.stacksV.map (fun st =>
      { st with
        n_out := os,
        blocks := st.blocks.map (fun b =>
          { b with n_out := os, g_forecast := g b }) }) }

/-- A concrete 1-to-1 identity linear layer (weight 1, bias 0), used by the
concrete featurization example below. -/
def idLinC5 : LinearM := ⟨[[1]], [0]⟩

/-- A concrete block whose trunk, expansion heads and generators are all the
identity on one value. -/
def blockC5 : BlockM := ⟨some 1, [idLinC5], idLinC5, idLinC5, idLinC5,
  some idLinC5⟩

/-- A concrete network with one stack of two identity blocks
(`n_in = 1`, `expansion_coefficient_dim = 1`, `n_out = 1`). -/
def netC5 : NBEATSM := ⟨1, some 1, 1, 2, 1, [⟨1, some 1, [blockC5, blockC5]⟩]⟩

/-- A concrete 1-to-1 doubling linear layer (weight 2, bias 0). -/
def dblLinC7 : LinearM := ⟨[[2]], [0]⟩

/-- A concrete block built from doubling layers. -/
def blockC7 : BlockM := ⟨some 1, [dblLinC7], dblLinC7, dblLinC7, dblLinC7,
  some dblLinC7⟩

/-- A concrete network with one stack of two doubling blocks. -/
def netC7 : NBEATSM := ⟨1, some 1, 1, 2, 1, [⟨1, some 1, [blockC7, blockC7]⟩]⟩

/-- A concrete network with one stack of one identity block and no `n_out`
(never prepared to forecast). -/
def netC8 : NBEATSM := ⟨1, none, 1, 1, 1,
  [⟨1, none, [⟨none, [idLinC5], idLinC5, idLinC5, idLinC5, none⟩]⟩]⟩

/-! ## Theorems -/

/-- Claim C1: constructing a `MultiTaskTimeSeriesModel` backbone raises a
configuration error iff no task size is supplied, and in particular a
concrete `MultiTaskRNN` with at least one task size supplied constructs
without one.  The code violates the second half: `MultiTaskRNN.__init__`
calls `super().__init__(n_in=n_in, space_dim=space_dim)` without forwarding
any of the three task sizes, so the base-class check fires on every
construction, whatever sizes the caller supplied. -/
theorem multiTaskRNN_init_always_raises_noTaskSize
    (n_in space_dim n_layers n_hidden : Int) (model forecast_type : String)
    (n_classes n_features n_out : Option Int)
    (hm : model = "GRU" ∨ model = "LSTM")
    (hf : forecast_type = "multi" ∨ forecast_type = "one_by_one") :
    MultiTaskRNN_init n_in space_dim model n_layers n_hidden
      n_classes n_features n_out forecast_type = .error .noTaskSize := by
  unfold MultiTaskRNN_init
  have hm' : ¬ (model ≠ "GRU" ∧ model ≠ "LSTM") := by
    rcases hm with h | h <;> simp [h]
  have hf' : ¬ (forecast_type ≠ "multi" ∧ forecast_type ≠ "one_by_one") := by
    rcases hf with h | h <;> simp [h]
  rw [if_neg hm', if_neg hf']
  rfl

/-- Witness for the C1 theorem at a fully concrete construction call: a GRU
with `n_in = 5`, `space_dim = 3`, `n_features = 4` supplied. -/
theorem multiTaskRNN_init_always_raises_noTaskSize_witness :
    MultiTaskRNN_init 5 3 "GRU" 1 4 none (some 4) none "one_by_one"
      = .error .noTaskSize :=
  multiTaskRNN_init_always_raises_noTaskSize 5 3 1 4 "GRU" "one_by_one"
    none (some 4) none (Or.inl rfl) (Or.inr rfl)

/-- Claim C9: the dispatch entry point `forward(x, kind)` raises a shape
error when the input's time-length or channel-count is wrong, raises the
unprepared-task error when the selected task's marker is unset (on a
well-shaped input), and any value it returns satisfies the selected task's
output-shape postcondition. -/
theorem MTTS_forward_dispatch_contract
    (n_in space_dim : Nat) (n_classes n_features n_out : Option Nat)
    (fc ff : Size3 → Size2) (fo : Size3 → Size3)
    (x : Size3) (kind : TaskKind) :
    (x.T ≠ n_in ∨ x.D ≠ space_dim →
      MTTS_forward n_in space_dim n_classes n_features n_out fc ff fo x kind
        = .error .shapeAssert) ∧
    (x.T = n_in → x.D = space_dim →
      markerOf n_classes n_features n_out kind = none →
      MTTS_forward n_in space_dim n_classes n_features n_out fc ff fo x kind
        = .error .notPrepared) ∧
    (∀ out,
      MTTS_forward n_in space_dim n_classes n_features n_out fc ff fo x kind
        = .ok out →
      fwdPost space_dim n_classes n_features n_out out) := by
  refine ⟨?_, ?_, ?_⟩
  · intro h
    unfold MTTS_forward
    rcases h with h | h
    · simp [h]
    · by_cases hT : x.T ≠ n_in <;> simp [hT, h]
  · intro hT hD hmark
    unfold MTTS_forward
    cases kind <;>
      simp_all [markerOf]
  · intro out
    unfold MTTS_forward
    by_cases hT : x.T ≠ n_in
    · simp [hT]
    · by_cases hD : x.D ≠ space_dim
      · simp [hT, hD]
      · simp only [hT, hD, if_false]
        cases kind with
        | classify =>
          cases hnc : n_classes with
          | none => simp
          | some nc =>
            by_cases hp : (fc x).d1 = nc <;> simp [hp, fwdPost] <;>
              rintro rfl <;> simp [hp]
        | featurize =>
          cases hnf : n_features with
          | none => simp
          | some nf =>
            by_cases hp : (ff x).d1 = nf <;> simp [hp, fwdPost] <;>
              rintro rfl <;> simp [hp]
        | forecast =>
          cases hno : n_out with
          | none => simp
          | some m =>
            by_cases hp : (fo x).T = m ∧ (fo x).D = space_dim <;>
              simp [hp, fwdPost] <;> rintro rfl <;>
              exact ⟨hp.1.symm, hp.2⟩

/-- Witness for the C9 theorem at concrete inputs: a model with
`n_in = 4`, `space_dim = 2`, prepared only to classify with 3 classes. -/
theorem MTTS_forward_dispatch_contract_witness :
    (MTTS_forward 4 2 (some 3) none none (fun _ => ⟨7, 3⟩) (fun _ => ⟨7, 9⟩)
        (fun s => s) ⟨7, 5, 2⟩ .classify = .error .shapeAssert) ∧
    (MTTS_forward 4 2 (some 3) none none (fun _ => ⟨7, 3⟩) (fun _ => ⟨7, 9⟩)
        (fun s => s) ⟨7, 4, 2⟩ .featurize = .error .notPrepared) ∧
    (fwdPost 2 (some 3) none none (.cls ⟨7, 3⟩)) := by
  refine ⟨?_, ?_, ?_⟩
  · exact (MTTS_forward_dispatch_contract 4 2 (some 3) none none
      (fun _ => ⟨7, 3⟩) (fun _ => ⟨7, 9⟩) (fun s => s) ⟨7, 5, 2⟩ .classify).1
      (Or.inl (by decide))
  · exact (MTTS_forward_dispatch_contract 4 2 (some 3) none none
      (fun _ => ⟨7, 3⟩) (fun _ => ⟨7, 9⟩) (fun s => s) ⟨7, 4, 2⟩
      .featurize).2.1 rfl rfl rfl
  · exact (MTTS_forward_dispatch_contract 4 2 (some 3) none none
      (fun _ => ⟨7, 3⟩) (fun _ => ⟨7, 9⟩) (fun s => s) ⟨7, 4, 2⟩
      .classify).2.2 (.cls ⟨7, 3⟩) rfl

/-- Claim C10: for forecast type `multi`, `get_applicable_forecast_functions`
binds the key `multi` to the attribute name `forecast_recurrently_chunk_first`,
which is not defined anywhere on the class, so evaluating that entry raises
`AttributeError`; only `forecast_recurrently_multi_first` is implemented.
(The lookup happens eagerly while the dictionary is built, so the call
itself raises.) -/
theorem get_applicable_forecast_functions_multi_raises :
    get_applicable_forecast_functions "multi" = .error .attributeError ∧
    "forecast_recurrently_chunk_first" ∉ multiTaskRNNAttrNames ∧
    "forecast_recurrently_multi_first" ∈ multiTaskRNNAttrNames ∧
    get_applicable_forecast_functions "one_by_one" =
      .ok [("chunks", "forecast_in_chunks"),
           ("one_by_one", "forecast_recurrently_one_by_one")] := by
  refine ⟨rfl, by decide, by decide, rfl⟩

/-- Claim C4 counterexample: on a starting state whose single featurizer
parameter is non-trainable, freezing then unfreezing the featurizer leaves
that parameter trainable — it does not restore the prior flag. -/
theorem freeze_unfreeze_not_involutive :
    unfreeze_featurizer (freeze_featurizer ⟨[false], [true]⟩)
      ≠ (⟨[false], [true]⟩ : ParamFlags) := by
  decide

/-- Claim C4, amended: freezing then unfreezing sets every featurizer
parameter trainable and never touches the non-featurizer parameters; the
round trip restores the starting state exactly when every featurizer
parameter was trainable before the freeze. -/
theorem freeze_unfreeze_roundtrip (p : ParamFlags) :
    unfreeze_featurizer (freeze_featurizer p)
        = ⟨List.replicate p.featurizer.length true, p.rest⟩ ∧
    (unfreeze_featurizer (freeze_featurizer p) = p ↔
        p.featurizer = List.replicate p.featurizer.length true) := by
  obtain ⟨f, r⟩ := p
  have h1 : unfreeze_featurizer (freeze_featurizer ⟨f, r⟩)
      = ⟨List.replicate f.length true, r⟩ := by
    simp [unfreeze_featurizer, freeze_featurizer, List.map_map]
  refine ⟨h1, ?_⟩
  rw [h1]
  constructor
  · intro h
    exact (congrArg ParamFlags.featurizer h).symm
  · intro h
    simp only [ParamFlags.mk.injEq]
    exact ⟨h.symm, trivial⟩

/-- Invariant of the chunk loop: when the native primitive maps well-shaped
windows to well-shaped `n_out`-step forecasts and `n_out ≥ 1`, the loop
appends exactly `remaining` well-shaped steps. -/
theorem chunksLoop_spec (F : TsQ → TsQ) (n_in m B D : Nat)
    (hF : ∀ w, tShape w n_in B D → tShape (F w) m B D) (hm : 1 ≤ m) :
    ∀ fuel remaining ts, remaining ≤ fuel → n_in ≤ ts.length →
      (∀ mt ∈ ts, mShape mt B D) →
      ∃ ext, chunksLoop F n_in m fuel remaining ts = ts ++ ext ∧
        ext.length = remaining ∧ ∀ mt ∈ ext, mShape mt B D := by
  intro fuel
  induction fuel with
  | zero =>
    intro remaining ts hr _ _
    refine ⟨[], by simp [chunksLoop],
      by simp only [List.length_nil]; omega, by simp⟩
  | succ fuel ih =>
    intro remaining ts hr hlen hsh
    by_cases h0 : remaining = 0
    · refine ⟨[], by simp [chunksLoop, h0], by simp [h0], by simp⟩
    · have hwin : tShape (ts.drop (ts.length - n_in)) n_in B D := by
        constructor
        · rw [List.length_drop]
          omega
        · intro mt hmt
          exact hsh mt (List.drop_subset _ _ hmt)
      have hout := hF _ hwin
      set w := min m remaining with hw
      have hw1 : 1 ≤ w := by omega
      have hwm : w ≤ m := by omega
      have htake : ((F (ts.drop (ts.length - n_in))).take w).length = w := by
        rw [List.length_take, hout.1]
        omega
      have hsh' : ∀ mt ∈ ts ++ (F (ts.drop (ts.length - n_in))).take w,
          mShape mt B D := by
        intro mt hmt
        rcases List.mem_append.mp hmt with h | h
        · exact hsh mt h
        · exact hout.2 mt (List.take_subset _ _ h)
      have hlen' : n_in ≤ (ts ++ (F (ts.drop (ts.length - n_in))).take w).length := by
        rw [List.length_append]
        omega
      obtain ⟨ext, heq, hextlen, hextsh⟩ :=
        ih (remaining - w) (ts ++ (F (ts.drop (ts.length - n_in))).take w)
          (by omega) hlen' hsh'
      refine ⟨(F (ts.drop (ts.length - n_in))).take w ++ ext, ?_, ?_, ?_⟩
      · show chunksLoop F n_in m (fuel + 1) remaining ts = _
        rw [chunksLoop, if_neg h0]
        rw [heq, List.append_assoc]
      · rw [List.length_append, htake]
        omega
      · intro mt hmt
        rcases List.mem_append.mp hmt with h | h
        · exact hout.2 mt (List.take_subset _ _ h)
        · exact hextsh mt h

/-- Invariant of the one-step recurrent loop: each iteration appends one
well-shaped (B, D) step. -/
theorem oneByOneLoop_spec {H : Type} (rnn : TsQ → Option H → TsQ × H)
    (forecaster : MatQ → MatQ) (B D nf : Nat)
    (hR : ∀ xs h, xs ≠ [] → (∀ mt ∈ xs, mShape mt B D) →
      (rnn xs h).1 ≠ [] ∧ mShape ((rnn xs h).1.getLastD []) B nf)
    (hFc : ∀ mt, mShape mt B nf → mShape (forecaster mt) B D) :
    ∀ (k : Nat) (ts out : TsQ) (h : H), (∀ mt ∈ ts, mShape mt B D) →
      mShape (out.getLastD []) B nf →
      ∃ ext, oneByOneLoop rnn forecaster k ts out h = ts ++ ext ∧
        ext.length = k ∧ ∀ mt ∈ ext, mShape mt B D := by
  intro k
  induction k with
  | zero =>
    intro ts out h _ _
    exact ⟨[], by simp [oneByOneLoop], rfl, by simp⟩
  | succ k ih =>
    intro ts out h hts hout
    have hstep : mShape (forecaster (out.getLastD [])) B D := hFc _ hout
    have hnext := hR [forecaster (out.getLastD [])] (some h) (by simp)
      (by intro mt hmt; rw [List.mem_singleton] at hmt; rw [hmt]; exact hstep)
    obtain ⟨ext, heq, hlen, hsh⟩ :=
      ih (ts ++ [forecaster (out.getLastD [])])
        (rnn [forecaster (out.getLastD [])] (some h)).1
        (rnn [forecaster (out.getLastD [])] (some h)).2
        (by
          intro mt hmt
          rcases List.mem_append.mp hmt with h' | h'
          · exact hts mt h'
          · rw [List.mem_singleton] at h'; rw [h']; exact hstep)
        hnext.2
    refine ⟨forecaster (out.getLastD []) :: ext, ?_, by simp [hlen], ?_⟩
    · show oneByOneLoop rnn forecaster (k + 1) ts out h = _
      rw [oneByOneLoop]
      rw [heq]
      simp
    · intro mt hmt
      rcases List.mem_cons.mp hmt with h' | h'
      · rw [h']; exact hstep
      · exact hsh mt h'

/-- Invariant of the keep-first recurrent loop: with a multi-step head of
width `m * D` and `m ≥ 1`, each iteration appends one well-shaped (B, D)
step (the first predicted step of the block). -/
theorem multiFirstLoop_spec {H : Type} (rnn : TsQ → Option H → TsQ × H)
    (forecaster : MatQ → MatQ) (B D nf m : Nat) (hm : 1 ≤ m)
    (hR : ∀ xs h, xs ≠ [] → (∀ mt ∈ xs, mShape mt B D) →
      (rnn xs h).1 ≠ [] ∧ mShape ((rnn xs h).1.getLastD []) B nf)
    (hFc : ∀ mt, mShape mt B nf → mShape (forecaster mt) B (m * D)) :
    ∀ (k : Nat) (ts out : TsQ) (h : H), (∀ mt ∈ ts, mShape mt B D) →
      mShape (out.getLastD []) B nf →
      ∃ ext, multiFirstLoop rnn forecaster D k ts out h = ts ++ ext ∧
        ext.length = k ∧ ∀ mt ∈ ext, mShape mt B D := by
  intro k
  induction k with
  | zero =>
    intro ts out h _ _
    exact ⟨[], by simp [multiFirstLoop], rfl, by simp⟩
  | succ k ih =>
    intro ts out h hts hout
    have hblock : mShape (forecaster (out.getLastD [])) B (m * D) := hFc _ hout
    have hstep : mShape
        ((forecaster (out.getLastD [])).map (fun row => row.take D)) B D := by
      constructor
      · rw [List.length_map]; exact hblock.1
      · intro r hr
        rw [List.mem_map] at hr
        obtain ⟨r0, hr0, hr0eq⟩ := hr
        rw [← hr0eq, List.length_take, hblock.2 r0 hr0]
        have : D ≤ m * D := Nat.le_mul_of_pos_left D hm
        omega
    have hnext := hR
      [(forecaster (out.getLastD [])).map (fun row => row.take D)] (some h)
      (by simp)
      (by intro mt hmt; rw [List.mem_singleton] at hmt; rw [hmt]; exact hstep)
    obtain ⟨ext, heq, hlen, hsh⟩ :=
      ih (ts ++ [(forecaster (out.getLastD [])).map (fun row => row.take D)])
        ((rnn [(forecaster (out.getLastD [])).map (fun row => row.take D)]
          (some h)).1)
        ((rnn [(forecaster (out.getLastD [])).map (fun row => row.take D)]
          (some h)).2)
        (by
          intro mt hmt
          rcases List.mem_append.mp hmt with h' | h'
          · exact hts mt h'
          · rw [List.mem_singleton] at h'; rw [h']; exact hstep)
        hnext.2
    refine ⟨(forecaster (out.getLastD [])).map (fun row => row.take D) :: ext,
      ?_, by simp [hlen], ?_⟩
    · show multiFirstLoop rnn forecaster D (k + 1) ts out h = _
      rw [multiFirstLoop]
      rw [heq]
      simp
    · intro mt hmt
      rcases List.mem_cons.mp hmt with h' | h'
      · rw [h']; exact hstep
      · exact hsh mt h'

/-- Claim C2: for a prepared model (`n_out = m ≥ 1`, a native forecast
primitive of the right shape, matching forecast type for the recurrent
variants), each of `forecast_in_chunks`, `forecast_recurrently_one_by_one`
and `forecast_recurrently_multi_first` on an input of shape (B, n_in, D)
and horizon n returns a series of shape (B, n_in + n, D) whose first `n_in`
steps are exactly the input. -/
theorem forecast_extensions_shape_and_keep_input {H : Type}
    (B D n_in nf m n : Nat)
    (F : TsQ → TsQ) (rnn : TsQ → Option H → TsQ × H)
    (forecaster1 forecasterM : MatQ → MatQ) (x : TsQ)
    (hm : 1 ≤ m) (_hn : 1 ≤ n) (hnin : 1 ≤ n_in)
    (hx : tShape x n_in B D)
    (hF : ∀ w, tShape w n_in B D → tShape (F w) m B D)
    (hR : ∀ xs h, xs ≠ [] → (∀ mt ∈ xs, mShape mt B D) →
      (rnn xs h).1 ≠ [] ∧ mShape ((rnn xs h).1.getLastD []) B nf)
    (hFc1 : ∀ mt, mShape mt B nf → mShape (forecaster1 mt) B D)
    (hFcM : ∀ mt, mShape mt B nf → mShape (forecasterM mt) B (m * D)) :
    (∃ r, forecast_in_chunks n_in (some m) F x n = some r ∧
      tShape r (n_in + n) B D ∧ r.take n_in = x) ∧
    (∃ r, forecast_recurrently_one_by_one "one_by_one" rnn forecaster1 x n
        = some r ∧ tShape r (n_in + n) B D ∧ r.take n_in = x) ∧
    (∃ r, forecast_recurrently_multi_first "multi" rnn forecasterM D x n
        = some r ∧ tShape r (n_in + n) B D ∧ r.take n_in = x) := by
  have htake : ∀ ext : TsQ, (x ++ ext).take n_in = x := by
    intro ext
    rw [← hx.1]
    exact List.take_left x ext
  have hshext : ∀ ext : TsQ, ext.length = n → (∀ mt ∈ ext, mShape mt B D) →
      tShape (x ++ ext) (n_in + n) B D := by
    intro ext hlen hsh
    constructor
    · rw [List.length_append, hx.1, hlen]
    · intro mt hmt
      rcases List.mem_append.mp hmt with h | h
      · exact hx.2 mt h
      · exact hsh mt h
  have hx0 : x ≠ [] := by
    intro h
    rw [h] at hx
    simp [tShape] at hx
    omega
  refine ⟨?_, ?_, ?_⟩
  · obtain ⟨ext, heq, hlen, hsh⟩ :=
      chunksLoop_spec F n_in m B D hF hm n n x le_rfl (le_of_eq hx.1.symm)
        hx.2
    refine ⟨x ++ ext, ?_, hshext ext hlen hsh, htake ext⟩
    rw [forecast_in_chunks, if_pos hx.1, heq]
  · obtain ⟨ext, heq, hlen, hsh⟩ :=
      oneByOneLoop_spec rnn forecaster1 B D nf hR hFc1 n x
        (rnn x none).1 (rnn x none).2 hx.2 (hR x none hx0 hx.2).2
    refine ⟨x ++ ext, ?_, hshext ext hlen hsh, htake ext⟩
    simp only [forecast_recurrently_one_by_one, eq_self_iff_true, if_true]
    rw [heq]
  · obtain ⟨ext, heq, hlen, hsh⟩ :=
      multiFirstLoop_spec rnn forecasterM B D nf m hm hR hFcM n x
        (rnn x none).1 (rnn x none).2 hx.2 (hR x none hx0 hx.2).2
    refine ⟨x ++ ext, ?_, hshext ext hlen hsh, htake ext⟩
    simp only [forecast_recurrently_multi_first, eq_self_iff_true, if_true]
    rw [heq]

/-- Witness for the C2 theorem at a fully concrete instantiation:
B = D = n_in = nf = m = 1, horizon n = 2, constant primitives. -/
theorem forecast_extensions_shape_and_keep_input_witness :
    (∃ r, forecast_in_chunks 1 (some 1) (fun _ => [[[(5 : ℚ)]]]) [[[3]]] 2
        = some r ∧ tShape r (1 + 2) 1 1 ∧ r.take 1 = [[[3]]]) ∧
    (∃ r, forecast_recurrently_one_by_one "one_by_one"
        (fun _ _ => ([[[(7 : ℚ)]]], ())) (fun _ => [[2]]) [[[3]]] 2
        = some r ∧ tShape r (1 + 2) 1 1 ∧ r.take 1 = [[[3]]]) ∧
    (∃ r, forecast_recurrently_multi_first "multi"
        (fun _ _ => ([[[(7 : ℚ)]]], ())) (fun _ => [[2]]) 1 [[[3]]] 2
        = some r ∧ tShape r (1 + 2) 1 1 ∧ r.take 1 = [[[3]]]) :=
  forecast_extensions_shape_and_keep_input 1 1 1 1 1 2
    (fun _ => [[[(5 : ℚ)]]]) (fun _ _ => ([[[(7 : ℚ)]]], ()))
    (fun _ => [[2]]) (fun _ => [[2]]) [[[3]]]
    (by decide) (by decide) (by decide) (by decide)
    (fun _ _ => by show tShape [[[(5 : ℚ)]]] 1 1 1; decide)
    (fun _ _ _ _ => by
      show ([[[(7 : ℚ)]]] : TsQ) ≠ [] ∧
        mShape (List.getLastD ([[[(7 : ℚ)]]] : TsQ) []) 1 1
      decide)
    (fun _ _ => by show mShape [[(2 : ℚ)]] 1 1; decide)
    (fun _ _ => by show mShape [[(2 : ℚ)]] 1 (1 * 1); decide)

/-- Helper: on any network with at least one stack, the featurizer-parameter
comprehension raises `TypeError` at the first `for block in stack`. -/
theorem nbflags_get_raises (s : NBFlags) (h : s.stacksM ≠ []) :
    mt_nbeats_get_featurizer_parameters s = .error .typeError := by
  obtain ⟨sts⟩ := s
  cases sts with
  | nil => exact absurd rfl h
  | cons st rest => rfl

/-- Helper: the raising freeze and unfreeze calls leave the flag state
unchanged. -/
theorem nbStep_freeze_unfreeze_id (s : NBFlags) (h : s.stacksM ≠ []) :
    nbStep .freeze s = s ∧ nbStep .unfreeze s = s := by
  have hg := nbflags_get_raises s h
  constructor <;>
    simp [nbStep, mt_nbeats_freeze_featurizer, mt_nbeats_unfreeze_featurizer,
      hg]

/-- Helper: every public operation preserves both the presence of stacks and
the frozen terminal backcast generator. -/
theorem nbStep_preserves_terminal (op : NBOp) (s : NBFlags)
    (h1 : s.stacksM ≠ []) (h2 : terminal_g_backcast s = some false) :
    (nbStep op s).stacksM ≠ [] ∧
      terminal_g_backcast (nbStep op s) = some false := by
  cases op with
  | freeze =>
    rw [(nbStep_freeze_unfreeze_id s h1).1]
    exact ⟨h1, h2⟩
  | unfreeze =>
    rw [(nbStep_freeze_unfreeze_id s h1).2]
    exact ⟨h1, h2⟩
  | otherPublic => exact ⟨h1, h2⟩
  | setNOut =>
    constructor
    · simp only [nbStep]
      simpa using h1
    · unfold terminal_g_backcast at h2 ⊢
      simp only [nbStep]
      cases hst : s.stacksM.getLast? with
      | none => rw [hst] at h2; simp at h2
      | some lastStack =>
        rw [hst] at h2
        simp only [Option.some_bind] at h2
        simp only [List.getLast?_map, hst, Option.map_some', Option.some_bind]
        cases hbk : lastStack.blocks.getLast? with
        | none => rw [hbk] at h2; simp at h2
        | some lastBlk =>
          rw [hbk] at h2
          simp at h2 ⊢
          exact h2

/-- Helper: a successful terminal-block freeze yields a nonempty stack list
whose last block has a non-trainable backcast generator. -/
theorem freezeTerminalBlock_spec (s l : List StackFlags)
    (h : freezeTerminalBlock s = some l) :
    l ≠ [] ∧ terminal_g_backcast ⟨l⟩ = some false := by
  unfold freezeTerminalBlock at h
  split at h
  · exact absurd h (by simp)
  · split at h
    · exact absurd h (by simp)
    · cases h
      refine ⟨by simp, ?_⟩
      simp [terminal_g_backcast, List.getLast?_concat]

/-- Helper: a successful `NBEATS` construction produces a state with at
least one stack whose terminal backcast generator is frozen. -/
theorem NBEATS_flags_init_terminal (ns nb : Nat) (w : Bool) (s0 : NBFlags)
    (h : NBEATS_flags_init ns nb w = .ok s0) :
    s0.stacksM ≠ [] ∧ terminal_g_backcast s0 = some false := by
  unfold NBEATS_flags_init at h
  split at h
  · exact absurd h (by simp)
  · rename_i l heq
    have hs0 : s0 = ⟨l⟩ := by
      cases h
      rfl
    subst hs0
    obtain ⟨hne, hterm⟩ := freezeTerminalBlock_spec _ l heq
    exact ⟨hne, hterm⟩

/-- Claim C6: the backcast-generation weights of the very last block of the
last stack are non-trainable from construction onward, and stay so in every
state reachable through the public operations (freezing and unfreezing the
featurizer included — on this backbone those calls raise before mutating
anything, and `set_n_out` only replaces forecast generators). -/
theorem nbeats_terminal_backcast_requires_grad_false (ns nb : Nat) (w : Bool)
    (s0 : NBFlags) (h : NBEATS_flags_init ns nb w = .ok s0) (ops : List NBOp) :
    terminal_g_backcast (ops.foldl (fun s op => nbStep op s) s0)
      = some false := by
  have hinv := NBEATS_flags_init_terminal ns nb w s0 h
  clear h
  induction ops generalizing s0 with
  | nil => exact hinv.2
  | cons op rest ih =>
    simp only [List.foldl_cons]
    exact ih (nbStep op s0) (nbStep_preserves_terminal op s0 hinv.1 hinv.2)

/-- Witness for the C6 theorem: a 1-stack, 1-block network with `n_out`
given, after a freeze/unfreeze/set_n_out sequence. -/
theorem nbeats_terminal_backcast_requires_grad_false_witness :
    terminal_g_backcast
      ([NBOp.freeze, NBOp.unfreeze, NBOp.setNOut].foldl
        (fun s op => nbStep op s)
        ⟨[⟨[⟨true, false, true, false, some true⟩]⟩]⟩) = some false :=
  nbeats_terminal_backcast_requires_grad_false 1 1 true
    ⟨[⟨[⟨true, false, true, false, some true⟩]⟩]⟩ rfl
    [NBOp.freeze, NBOp.unfreeze, NBOp.setNOut]

/-- Claim C3 counterexample: on a concrete one-stack, one-block
residual-stack backbone, `_get_featurizer_parameters` does not return a
parameter set at all — it raises `TypeError` (iterating the non-iterable
`_Stack`), so the returned set cannot consist of the claimed modules. -/
theorem mt_nbeats_get_featurizer_parameters_raises :
    mt_nbeats_get_featurizer_parameters
      ⟨[⟨[⟨true, true, true, true, none⟩]⟩]⟩ = .error .typeError := rfl

/-- Claim C3, amended: on every residual-stack backbone with at least one
stack, `_get_featurizer_parameters` raises (`for block in stack` iterates
the non-iterable `_Stack`; moreover the attribute names it references —
`FC_forward`, `FC_backward`, `g_backward` — are not defined on `_Block`,
which defines `FC_forecast`, `FC_backcast`, `g_backcast`), so
`freeze_featurizer` and `unfreeze_featurizer` fail and change no
parameter's trainable flag. -/
theorem mt_nbeats_featurizer_parameters_error (s : NBFlags)
    (h : s.stacksM ≠ []) :
    mt_nbeats_get_featurizer_parameters s = .error .typeError ∧
    mt_nbeats_freeze_featurizer s = .error .typeError ∧
    mt_nbeats_unfreeze_featurizer s = .error .typeError ∧
    nbStep .freeze s = s ∧ nbStep .unfreeze s = s ∧
    "FC_forward" ∉ nbeatsBlockAttrNames ∧
    "FC_backward" ∉ nbeatsBlockAttrNames ∧
    "g_backward" ∉ nbeatsBlockAttrNames := by
  have hg := nbflags_get_raises s h
  have hid := nbStep_freeze_unfreeze_id s h
  refine ⟨hg, ?_, ?_, hid.1, hid.2, by decide, by decide, by decide⟩
  · simp [mt_nbeats_freeze_featurizer, hg]
  · simp [mt_nbeats_unfreeze_featurizer, hg]

/-- Witness for the amended C3 theorem at a concrete two-block backbone. -/
theorem mt_nbeats_featurizer_parameters_error_witness :
    mt_nbeats_get_featurizer_parameters
        ⟨[⟨[⟨true, true, true, true, some true⟩,
            ⟨true, true, true, false, some true⟩]⟩]⟩ = .error .typeError ∧
    "FC_forward" ∉ nbeatsBlockAttrNames :=
  ⟨(mt_nbeats_featurizer_parameters_error
      ⟨[⟨[⟨true, true, true, true, some true⟩,
          ⟨true, true, true, false, some true⟩]⟩]⟩ (by decide)).1,
   (mt_nbeats_featurizer_parameters_error
      ⟨[⟨[⟨true, true, true, true, some true⟩,
          ⟨true, true, true, false, some true⟩]⟩]⟩ (by decide)).2.2.2.2.2.1⟩

/-- Helper: output width of a linear layer (rows of the weight matrix,
clipped by the bias length; both equal in well-formed layers). -/
theorem length_applyL (l : LinearM) (v : List ℚ) :
    (l.applyL v).length = min l.weight.length l.bias.length := by
  simp [LinearM.applyL]

/-- Helper: length of an element-wise sum. -/
theorem length_vadd (a b : List ℚ) :
    (vadd a b).length = min a.length b.length := by
  simp [vadd]

/-- Helper: length of an element-wise difference. -/
theorem length_vsub (a b : List ℚ) :
    (vsub a b).length = min a.length b.length := by
  simp [vsub]

/-- Helper: element-wise addition is associative. -/
theorem vaddQ_assoc : ∀ a b c : List ℚ, vadd (vadd a b) c = vadd a (vadd b c)
  | [], _, _ => rfl
  | _ :: _, [], _ => rfl
  | _ :: _, _ :: _, [] => rfl
  | x :: xs, y :: ys, z :: zs => by
    show (x + y + z) :: vadd (vadd xs ys) zs
        = (x + (y + z)) :: vadd xs (vadd ys zs)
    rw [add_assoc, vaddQ_assoc xs ys zs]

/-- Helper: a fold of sums starting from `vadd a b` pulls `a` out. -/
theorem foldl_vadd_shift (a : List ℚ) :
    ∀ (l : List (List ℚ)) (b : List ℚ),
      l.foldl vadd (vadd a b) = vadd a (l.foldl vadd b)
  | [], _ => rfl
  | v :: l, b => by
    show l.foldl vadd (vadd (vadd a b) v) = vadd a (l.foldl vadd (vadd b v))
    rw [vaddQ_assoc]
    exact foldl_vadd_shift a l (vadd b v)

/-- Helper: adding a long-enough zero vector on the right is the
identity. -/
theorem vadd_zerosQ : ∀ (v : List ℚ) (m : Nat),
    v.length ≤ m → vadd v (zerosQ m) = v
  | [], _, _ => rfl
  | x :: xs, 0, h => by simp at h
  | x :: xs, m + 1, h => by
    show (x + 0) :: vadd xs (zerosQ m) = x :: xs
    rw [add_zero, vadd_zerosQ xs m (by simpa using h)]

/-- Helper: unpacking a block's readiness flag. -/
theorem blockReadyF_spec (b : BlockM) (nin m : Nat)
    (h : blockReadyF b nin m = true) :
    (∃ gf, b.g_forecast = some gf ∧ gf.weight.length = m ∧
      gf.bias.length = m) ∧
    b.g_backcast.weight.length = nin ∧ b.g_backcast.bias.length = nin := by
  unfold blockReadyF at h
  cases hgf : b.g_forecast with
  | none => rw [hgf] at h; simp at h
  | some gf =>
    rw [hgf] at h
    simp only [Bool.and_eq_true, beq_iff_eq] at h
    exact ⟨⟨gf, rfl, h.1.1.1, h.1.1.2⟩, h.1.2, h.2⟩

/-- Helper: every forecast in the per-block chain has the readiness
width. -/
theorem blockForecastChain_lengths (nin m : Nat) :
    ∀ (bs : List BlockM) (r : List ℚ),
      (∀ b ∈ bs, blockReadyF b nin m = true) →
      ∀ v ∈ blockForecastChain bs r, v.length = m := by
  intro bs
  induction bs with
  | nil => intro r _ v hv; simp [blockForecastChain] at hv
  | cons b rest ih =>
    intro r hb v hv
    rw [blockForecastChain] at hv
    rcases List.mem_cons.mp hv with h | h
    · obtain ⟨⟨gf, hgf, hw, hbias⟩, _, _⟩ :=
        blockReadyF_spec b nin m (hb b (List.mem_cons_self b rest))
      rw [h, hgf]
      simp [length_applyL, hw, hbias]
    · exact ih _ (fun b' h' => hb b' (List.mem_cons_of_mem b h')) v h

/-- Helper: the doubly-residual propagation preserves the input width. -/
theorem residAfter_length (nin m : Nat) :
    ∀ (bs : List BlockM) (r : List ℚ),
      (∀ b ∈ bs, blockReadyF b nin m = true) → r.length = nin →
      (residAfter bs r).length = nin := by
  intro bs
  induction bs with
  | nil => intro r _ hr; exact hr
  | cons b rest ih =>
    intro r hb hr
    rw [residAfter]
    apply ih _ (fun b' h' => hb b' (List.mem_cons_of_mem b h'))
    obtain ⟨_, hw, hbias⟩ :=
      blockReadyF_spec b nin m (hb b (List.mem_cons_self b rest))
    rw [length_vsub, length_applyL, hw, hbias, hr]
    omega

/-- Helper: folding sums of width-`m` vectors keeps width `m`. -/
theorem foldl_vadd_length (m : Nat) :
    ∀ (l : List (List ℚ)) (acc : List ℚ),
      (∀ v ∈ l, v.length = m) → acc.length = m →
      (l.foldl vadd acc).length = m := by
  intro l
  induction l with
  | nil => intro acc _ h; exact h
  | cons v l ih =>
    intro acc hl hacc
    rw [List.foldl_cons]
    apply ih _ (fun v' h' => hl v' (List.mem_cons_of_mem v h'))
    rw [length_vadd, hacc, hl v (List.mem_cons_self v l)]
    omega

/-- Helper: the residual propagation splits over an append. -/
theorem residAfter_append : ∀ (a b : List BlockM) (r : List ℚ),
    residAfter (a ++ b) r = residAfter b (residAfter a r)
  | [], _, _ => rfl
  | blk :: a, b, r => by
    rw [List.cons_append, residAfter, residAfter]
    exact residAfter_append a b _

/-- Helper: the forecast chain splits over an append, threading the
residual. -/
theorem blockForecastChain_append : ∀ (a b : List BlockM) (r : List ℚ),
    blockForecastChain (a ++ b) r
      = blockForecastChain a r ++ blockForecastChain b (residAfter a r)
  | [], _, _ => rfl
  | blk :: a, b, r => by
    rw [List.cons_append, blockForecastChain, blockForecastChain, residAfter]
    rw [blockForecastChain_append a b _]
    rfl

/-- Helper: a block's forward output once `g_forecast` is present. -/
theorem forwardB_some (b : BlockM) (gf : LinearM)
    (hgf : b.g_forecast = some gf) (x : List ℚ) :
    BlockM.forwardB b x
      = some (b.g_backcast.applyL (b.get_expansions x).1,
          gf.applyL (b.get_expansions x).2) := by
  unfold BlockM.forwardB
  rw [hgf]

/-- Helper: the block fold of `_Stack.forward` computes the doubly-residual
chain and accumulates every block's forecast. -/
theorem blocks_foldlM_eq (nin m : Nat) :
    ∀ (bs : List BlockM) (x acc : List ℚ),
      (∀ b ∈ bs, blockReadyF b nin m = true) →
      List.foldlM (fun (p : List ℚ × List ℚ) b => do
          let r ← BlockM.forwardB b p.1
          pure (vsub p.1 r.1, vadd p.2 r.2)) (x, acc) bs
        = some (residAfter bs x,
            (blockForecastChain bs x).foldl vadd acc) := by
  intro bs
  induction bs with
  | nil => intro x acc _; rfl
  | cons b rest ih =>
    intro x acc hb
    obtain ⟨⟨gf, hgf, _, _⟩, _, _⟩ :=
      blockReadyF_spec b nin m (hb b (List.mem_cons_self b rest))
    rw [List.foldlM_cons, forwardB_some b gf hgf]
    show List.foldlM (fun (p : List ℚ × List ℚ) b => do
          let r ← BlockM.forwardB b p.1
          pure (vsub p.1 r.1, vadd p.2 r.2))
        (vsub x (b.g_backcast.applyL (b.get_expansions x).1),
         vadd acc (gf.applyL (b.get_expansions x).2)) rest
        = some (residAfter (b :: rest) x,
            (blockForecastChain (b :: rest) x).foldl vadd acc)
    rw [ih _ _ (fun b' h' => hb b' (List.mem_cons_of_mem b h'))]
    simp only [residAfter, blockForecastChain, hgf, Option.getD_some,
      List.foldl_cons]

/-- Helper: `_Stack.forward` equals the chain description once prepared. -/
theorem StackM_forwardS_eq (st : StackM) (x : List ℚ) (m nin : Nat)
    (hno : st.n_out = some m) (hT : x.length = st.n_in)
    (hb : ∀ b ∈ st.blocks, blockReadyF b nin m = true) :
    StackM.forwardS st x
      = some (residAfter st.blocks x,
          (blockForecastChain st.blocks x).foldl vadd (zerosQ m)) := by
  unfold StackM.forwardS
  rw [if_pos hT, hno]
  exact blocks_foldlM_eq nin m st.blocks x (zerosQ m) hb

/-- Helper: the stack fold of `NBEATS.forward` computes the flattened
doubly-residual chain and accumulates every block's forecast. -/
theorem net_foldlM_eq (nin m : Nat) :
    ∀ (sts : List StackM) (x fc : List ℚ),
      (∀ st ∈ sts, st.n_out = some m ∧ st.n_in = nin ∧
        ∀ b ∈ st.blocks, blockReadyF b nin m = true) →
      x.length = nin → fc.length = m →
      List.foldlM (fun (p : List ℚ × List ℚ) st => do
          let r ← StackM.forwardS st p.1
          pure (r.1, vadd p.2 r.2)) (x, fc) sts
        = some (residAfter ((sts.map (fun st => st.blocks)).flatten) x,
            (blockForecastChain ((sts.map (fun st => st.blocks)).flatten)
              x).foldl vadd fc) := by
  intro sts
  induction sts with
  | nil => intro x fc _ _ _; rfl
  | cons st rest ih =>
    intro x fc hs hx hfc
    obtain ⟨hno, hnin, hbs⟩ := hs st (List.mem_cons_self st rest)
    rw [List.foldlM_cons,
      StackM_forwardS_eq st x m nin hno (by rw [hx, hnin]) hbs]
    show List.foldlM (fun (p : List ℚ × List ℚ) st => do
          let r ← StackM.forwardS st p.1
          pure (r.1, vadd p.2 r.2))
        (residAfter st.blocks x,
         vadd fc ((blockForecastChain st.blocks x).foldl vadd (zerosQ m)))
        rest
        = some (residAfter (((st :: rest).map
              (fun s => s.blocks)).flatten) x,
            (blockForecastChain (((st :: rest).map
              (fun s => s.blocks)).flatten) x).foldl vadd fc)
    have hlen1 : (residAfter st.blocks x).length = nin :=
      residAfter_length nin m st.blocks x hbs hx
    have hchain : ∀ v ∈ blockForecastChain st.blocks x, v.length = m :=
      blockForecastChain_lengths nin m st.blocks x hbs
    have hlen2 : (vadd fc ((blockForecastChain st.blocks x).foldl vadd
        (zerosQ m))).length = m := by
      rw [length_vadd, hfc,
        foldl_vadd_length m _ _ hchain (by simp [zerosQ])]
      omega
    rw [ih _ _ (fun s' h' => hs s' (List.mem_cons_of_mem st h')) hlen1 hlen2]
    have hflat : (((st :: rest).map (fun s => s.blocks)).flatten)
        = st.blocks ++ ((rest.map (fun s => s.blocks)).flatten) := by
      simp
    rw [hflat, residAfter_append, blockForecastChain_append,
      List.foldl_append]
    rw [← foldl_vadd_shift fc (blockForecastChain st.blocks x) (zerosQ m)]
    rw [vadd_zerosQ fc m (le_of_eq hfc)]

/-- Claim C7: for every prepared, well-formed network and every input of
the right width, the total forecast of `NBEATS.forward` equals the
element-wise sum, over every block of every stack, of that block's
individual forecast computed on that block's residual input. -/
theorem nbeats_forward_additivity (net : NBEATSM) (x : List ℚ) (m : Nat)
    (hno : net.n_out = some m) (hx : x.length = net.n_in)
    (hs : ∀ st ∈ net.stacksV, st.n_out = some m ∧ st.n_in = net.n_in ∧
      ∀ b ∈ st.blocks, blockReadyF b net.n_in m = true) :
    NBEATSM.forwardN net x = some (blockForecastSum net x m) := by
  unfold NBEATSM.forwardN
  rw [hno]
  simp only [hx, if_true]
  rw [net_foldlM_eq net.n_in m net.stacksV x (zerosQ m) hs hx
    (by simp [zerosQ])]
  simp [blockForecastSum, flatBlocks]

/-- Witness for the C7 theorem at the concrete two-block network
`netC7` on the input `[1]`. -/
theorem nbeats_forward_additivity_witness :
    NBEATSM.forwardN netC7 [1] = some (blockForecastSum netC7 [1] 1) :=
  nbeats_forward_additivity netC7 [1] 1 (by decide) (by decide) (by decide)

/-- Claim C5 (code divergence at a concrete input): on the identity network
`netC5`, the code's featurization pass produces `[1, 1]` while the
forward-pass residual propagation the spec describes produces `[1, 0]` —
`featurize` assigns `backcast = block.g_backcast(backcast_expansion)`
(line 155) instead of subtracting it from the running residual as
`_Stack.forward` does (line 90). -/
theorem nbeats_featurize_propagation_diverges :
    NBEATSM.featurizeN netC5 [1] = some [1, 1] ∧
    featurizeSpec netC5 [1] = some [1, 0] ∧
    NBEATSM.featurizeN netC5 [1] ≠ featurizeSpec netC5 [1] := by
  have h1 : NBEATSM.featurizeN netC5 [1] = some [1, 1] := by
    norm_num [NBEATSM.featurizeN, featStacksLoop, featBlocksLoop, netC5,
      blockC5, idLinC5, BlockM.get_expansions, BlockM.trunk, LinearM.applyL,
      dotQ, reluQ, zerosQ, writeSlice]
  have h2 : featurizeSpec netC5 [1] = some [1, 0] := by
    norm_num [featurizeSpec, specFeatureChain, flatBlocks, netC5, blockC5,
      idLinC5, BlockM.get_expansions, BlockM.trunk, LinearM.applyL, dotQ,
      reluQ, vsub]
  refine ⟨h1, h2, ?_⟩
  rw [h1, h2]
  simp

/-- Helper: the feature expansion of a well-formed block has the expansion
width, whatever the residual. -/
theorem blockFeatOK_spec (b : BlockM) (ecd : Nat)
    (h : blockFeatOK b ecd = true) (r : List ℚ) :
    ((b.get_expansions r).2).length = ecd := by
  unfold blockFeatOK at h
  simp only [Bool.and_eq_true, beq_iff_eq] at h
  simp [BlockM.get_expansions, length_applyL, h.1, h.2]

/-- Helper: a slice assignment inside the buffer keeps its length. -/
theorem length_writeSlice (f v : List ℚ) (i len : Nat) (hv : v.length = len)
    (hle : i + len ≤ f.length) :
    (writeSlice f i len v).length = f.length := by
  simp [writeSlice, List.length_append, List.length_take, List.length_drop,
    hv]
  omega

/-- Helper: the inner featurize loop keeps the feature-buffer length, as
long as every write lands inside the buffer. -/
theorem featBlocksLoop_len (nb ecd s W : Nat) :
    ∀ (bs : List BlockM) (bi : Nat) (p : List ℚ × List ℚ),
      (∀ b ∈ bs, blockFeatOK b ecd = true) →
      p.2.length = W → (s * nb + bi + bs.length) * ecd ≤ W →
      ((featBlocksLoop nb ecd s bs bi p).2).length = W := by
  intro bs
  induction bs with
  | nil => intro bi p _ hW _; exact hW
  | cons blk rest ih =>
    intro bi p hok hW hbound
    rw [featBlocksLoop]
    apply ih (bi + 1) _ (fun b' h' => hok b' (List.mem_cons_of_mem blk h'))
    · show (writeSlice p.2 ((s * nb + bi) * ecd) ecd
        ((blk.get_expansions p.1).2)).length = W
      rw [length_writeSlice _ _ _ _
        (blockFeatOK_spec blk ecd (hok blk (List.mem_cons_self blk rest)) p.1)
        ?_]
      · exact hW
      · rw [hW]
        have h1 : (s * nb + bi) * ecd + ecd = (s * nb + bi + 1) * ecd := by
          ring
        rw [h1]
        calc (s * nb + bi + 1) * ecd
            ≤ (s * nb + bi + (blk :: rest).length) * ecd :=
              mul_le_mul_right' (by simp only [List.length_cons]; omega) ecd
          _ ≤ W := hbound
    · have h1 : s * nb + (bi + 1) + rest.length
          = s * nb + bi + (blk :: rest).length := by
        simp only [List.length_cons]
        omega
      rw [h1]
      exact hbound

/-- Helper: the outer featurize loop keeps the feature-buffer length. -/
theorem featStacksLoop_len (nb ecd ns : Nat) :
    ∀ (sts : List StackM) (si : Nat) (p : List ℚ × List ℚ),
      (∀ st ∈ sts, st.blocks.length = nb ∧
        ∀ b ∈ st.blocks, blockFeatOK b ecd = true) →
      p.2.length = ns * nb * ecd → si + sts.length ≤ ns →
      ((featStacksLoop nb ecd sts si p).2).length = ns * nb * ecd := by
  intro sts
  induction sts with
  | nil => intro si p _ hW _; exact hW
  | cons st rest ih =>
    intro si p hok hW hb
    rw [featStacksLoop]
    apply ih (si + 1) _ (fun s' h' => hok s' (List.mem_cons_of_mem st h'))
    · refine featBlocksLoop_len nb ecd si (ns * nb * ecd) st.blocks 0 p
        (hok st (List.mem_cons_self st rest)).2 hW ?_
      rw [(hok st (List.mem_cons_self st rest)).1]
      have h1 : (si * nb + 0 + nb) = (si + 1) * nb := by ring
      rw [h1]
      exact mul_le_mul_right'
        (mul_le_mul_right' (by simp only [List.length_cons] at hb; omega) nb)
        ecd
    · simp only [List.length_cons] at hb
      omega

/-- Helper: the inner featurize loop ignores the `n_out` markers and the
forecast generators. -/
theorem featBlocksLoop_replace (nb ecd s : Nat) (os : Option Nat)
    (g : BlockM → Option LinearM) :
    ∀ (bs : List BlockM) (bi : Nat) (p : List ℚ × List ℚ),
      featBlocksLoop nb ecd s
        (bs.map (fun b => { b with n_out := os, g_forecast := g b })) bi p
        = featBlocksLoop nb ecd s bs bi p := by
  intro bs
  induction bs with
  | nil => intro bi p; rfl
  | cons blk rest ih =>
    intro bi p
    simp only [List.map_cons, featBlocksLoop]
    exact ih (bi + 1) _

/-- Helper: the outer featurize loop ignores the `n_out` markers and the
forecast generators. -/
theorem featStacksLoop_replace (nb ecd : Nat) (os : Option Nat)
    (g : BlockM → Option LinearM) :
    ∀ (sts : List StackM) (si : Nat) (p : List ℚ × List ℚ),
      featStacksLoop nb ecd
        (sts.map (fun st =>
          { st with
            n_out := os,
            blocks := st.blocks.map (fun b =>
              { b with n_out := os, g_forecast := g b }) })) si p
        = featStacksLoop nb ecd sts si p := by
  intro sts
  induction sts with
  | nil => intro si p; rfl
  | cons st rest ih =>
    intro si p
    simp only [List.map_cons, featStacksLoop]
    rw [featBlocksLoop_replace nb ecd si os g st.blocks 0 p]
    exact ih (si + 1) _

/-- Claim C8: on a consistent, well-formed network, `NBEATS.featurize`
returns a feature vector of width
`n_stacks * n_blocks * expansion_coefficient_dim`, and its output is
unchanged by any rebinding of `n_out` and the forecast generators
(including the never-prepared state where they are all absent). -/
theorem nbeats_featurize_width (net : NBEATSM) (x : List ℚ)
    (hs : net.stacksV.length = net.n_stacks)
    (hb : ∀ st ∈ net.stacksV, st.blocks.length = net.n_blocks)
    (hf : ∀ st ∈ net.stacksV, ∀ b ∈ st.blocks,
      blockFeatOK b net.expansion_coefficient_dim = true)
    (hx : x.length = net.n_in) :
    (∃ f, NBEATSM.featurizeN net x = some f ∧
      f.length = net.n_stacks * net.n_blocks *
        net.expansion_coefficient_dim) ∧
    ∀ (o os : Option Nat) (g : BlockM → Option LinearM),
      NBEATSM.featurizeN (replaceForecastParts net o os g) x
        = NBEATSM.featurizeN net x := by
  constructor
  · unfold NBEATSM.featurizeN
    rw [if_pos hx]
    refine ⟨_, rfl, ?_⟩
    exact featStacksLoop_len net.n_blocks net.expansion_coefficient_dim
      net.n_stacks net.stacksV 0 (x, zerosQ (net.n_stacks * net.n_blocks *
        net.expansion_coefficient_dim))
      (fun st h => ⟨hb st h, hf st h⟩) (by simp [zerosQ]) (by omega)
  · intro o os g
    unfold NBEATSM.featurizeN replaceForecastParts
    simp only []
    rw [featStacksLoop_replace net.n_blocks net.expansion_coefficient_dim
      os g net.stacksV 0]

/-- Witness for the C8 theorem at the concrete one-block network `netC8`
(whose `n_out` is unset) on the input `[1]`. -/
theorem nbeats_featurize_width_witness :
    (∃ f, NBEATSM.featurizeN netC8 [1] = some f ∧ f.length = 1 * 1 * 1) ∧
    ∀ (o os : Option Nat) (g : BlockM → Option LinearM),
      NBEATSM.featurizeN (replaceForecastParts netC8 o os g) [1]
        = NBEATSM.featurizeN netC8 [1] :=
  nbeats_featurize_width netC8 [1] (by decide) (by decide) (by decide)
    (by decide)
